import Mathlib

/-
Verification development for firego's streaming-watch core (watch.go).

The file shallowly embeds the three pieces of the source:
  * `eventSplit` — the custom bufio.Scanner split function (bytes are `Nat`,
    a newline is byte 10; the Go return `(advance int, token []byte, err error)`
    becomes `Nat × List Nat × Option String`, the error always `none`);
  * the read-loop body of `Watch` — frame → `Event` classification, with the
    JSON payload decoding of `encoding/json.Unmarshal` into
    `map[string]interface{}` modelled by an executable JSON parser
    (`jsonUnmarshalObj`), and the Go panics / `log.Fatal` outcomes made
    explicit in a `StepResult` type;
  * the session state: the `watching` flag, `StopWatching`, and the
    synchronous part of `Watch` (the collaborators `makeRequest` and
    `client.Do` are out of scope per the spec and appear as error
    parameters).
-/

set_option autoImplicit false
set_option exponentiation.threshold 1100
set_option maxRecDepth 8192

namespace Firego

/-! ## Frame tokenizer: `eventSplit` -/

/-- Loop body of `eventSplit`: Go's `for _, b := range data` with the mutable
`token`, `advance` and `found` locals made explicit accumulators.  The byte is
appended and `advance` incremented before the newline test, exactly as in the
source, so the returned token includes the terminating blank line. -/
def eventSplitGo : List Nat → Nat → List Nat → Bool → Nat × List Nat × Option String
  | [], advance, token, _ => (advance, token, none)
  | b :: rest, advance, token, found =>
    if b = 10 then
      if found then (advance + 1, token ++ [b], none)
      else eventSplitGo rest (advance + 1) (token ++ [b]) true
    else eventSplitGo rest (advance + 1) (token ++ [b]) false

/-- Embedding of `eventSplit(data []byte, atEOF bool) (int, []byte, error)`.
The `atEOF` flag is ignored by the source and the error result is always nil. -/
def eventSplit (data : List Nat) (atEOF : Bool) : Nat × List Nat × Option String :=
  eventSplitGo data 0 [] false

/-- Specification-side predicate: the byte sequence contains no occurrence of
two consecutive newline bytes. -/
def noNLNL : List Nat → Bool
  | a :: b :: rest => if a = 10 ∧ b = 10 then false else noNLNL (b :: rest)
  | _ => true

/-- Specification-side count of occurrences of two consecutive newline bytes
(overlapping occurrences counted, so `[10,10,10]` has two). -/
def countNLNL : List Nat → Nat
  | a :: b :: rest => (if a = 10 ∧ b = 10 then 1 else 0) + countNLNL (b :: rest)
  | _ => 0

/-- Specification-side position just past the first blank-line boundary: the
number of bytes up to and including the first `\n\n`, if any. -/
def frameEnd : List Nat → Option Nat
  | a :: b :: rest => if a = 10 ∧ b = 10 then some 2 else (frameEnd (b :: rest)).map (· + 1)
  | _ => none

/-- Number of bytes the scan loop consumes starting from a given `found`
state: `some k` when it breaks after `k` bytes, `none` when it exhausts the
input.  This is the abstract trace of `eventSplitGo`. -/
def cutLen : Bool → List Nat → Option Nat
  | _, [] => none
  | found, b :: rest =>
    if b = 10 then
      if found then some 1
      else (cutLen true rest).map (· + 1)
    else (cutLen false rest).map (· + 1)

theorem eventSplitGo_cut (data : List Nat) : ∀ (found : Bool) (adv : Nat) (tok : List Nat),
    eventSplitGo data adv tok found =
      match cutLen found data with
      | some k => (adv + k, tok ++ data.take k, none)
      | none => (adv + data.length, tok ++ data, none) := by
  induction data with
  | nil => intro found adv tok; simp [eventSplitGo, cutLen]
  | cons b rest ih =>
    intro found adv tok
    by_cases hb : b = 10
    · subst hb
      cases found with
      | true => simp [eventSplitGo, cutLen]
      | false =>
        simp only [eventSplitGo, cutLen, if_pos rfl, if_pos trivial]
        rw [ih true (adv + 1) (tok ++ [10])]
        cases h : cutLen true rest with
        | none =>
          simp [h, List.append_assoc]
          omega
        | some k =>
          simp [h, List.append_assoc, List.take_succ_cons]
          omega
    · simp only [eventSplitGo, cutLen, if_neg hb]
      rw [ih false (adv + 1) (tok ++ [b])]
      cases h : cutLen false rest with
      | none =>
        simp [h, List.append_assoc]
        omega
      | some k =>
        simp [h, List.append_assoc, List.take_succ_cons]
        omega

theorem noNLNL_tail (a : Nat) (l : List Nat) (h : noNLNL (a :: l) = true) : noNLNL l = true := by
  cases l with
  | nil => rfl
  | cons b rest =>
    rw [noNLNL] at h
    by_cases hab : a = 10 ∧ b = 10
    · rw [if_pos hab] at h; simp at h
    · rwa [if_neg hab] at h

theorem noNLNL_cutLen (data : List Nat) (h : noNLNL data = true) :
    cutLen false data = none := by
  induction data with
  | nil => rfl
  | cons a tail ih =>
    have hct : cutLen false tail = none := ih (noNLNL_tail a tail h)
    rw [cutLen]
    by_cases ha : a = 10
    · rw [if_pos ha]
      cases tail with
      | nil => rfl
      | cons b rest =>
        have hb : ¬ b = 10 := by
          intro hb
          rw [noNLNL, if_pos ⟨ha, hb⟩] at h
          simp at h
        rw [cutLen, if_neg hb] at hct
        rw [Option.map_eq_none'] at hct
        rw [cutLen, if_neg hb, hct]
        rfl
    · rw [if_neg ha, hct]
      rfl

theorem cutLen_false_frameEnd (data : List Nat) : ∀ k, frameEnd data = some k →
    cutLen false data = some k := by
  induction data with
  | nil => intro k hk; simp [frameEnd] at hk
  | cons a tail ih =>
    intro k hk
    cases tail with
    | nil => simp [frameEnd] at hk
    | cons b rest =>
      rw [frameEnd] at hk
      by_cases hab : a = 10 ∧ b = 10
      · rw [if_pos hab] at hk
        obtain ⟨rfl⟩ : 2 = k := Option.some.inj hk
        rw [cutLen, if_pos hab.1]
        cases rest with
        | nil => rw [cutLen, hab.2, if_pos rfl]; rfl
        | cons c r => rw [cutLen, hab.2, if_pos rfl]; rfl
      · rw [if_neg hab] at hk
        obtain ⟨k1, hk1, rfl⟩ := Option.map_eq_some'.mp hk
        have hc : cutLen false (b :: rest) = some k1 := ih k1 hk1
        by_cases ha : a = 10
        · have hb : ¬ b = 10 := fun hb => hab ⟨ha, hb⟩
          rw [cutLen, if_neg hb] at hc
          rw [cutLen, if_pos ha, cutLen, if_neg hb, hc]
          rfl
        · rw [cutLen, if_neg ha, hc]
          rfl

theorem countNLNL_pos_frameEnd (data : List Nat) (h : countNLNL data ≠ 0) :
    ∃ k, frameEnd data = some k := by
  induction data with
  | nil => simp [countNLNL] at h
  | cons a tail ih =>
    cases tail with
    | nil => simp [countNLNL] at h
    | cons b rest =>
      rw [countNLNL] at h
      by_cases hab : a = 10 ∧ b = 10
      · exact ⟨2, by rw [frameEnd, if_pos hab]⟩
      · rw [if_neg hab] at h
        simp only [Nat.zero_add] at h
        obtain ⟨k, hk⟩ := ih h
        exact ⟨k + 1, by rw [frameEnd, if_neg hab, hk]; rfl⟩

/-- C8: a byte sequence with no two consecutive newline bytes is consumed
whole and returned unchanged as one (possibly incomplete) frame, with a nil
error. -/
theorem eventSplit_no_boundary (data : List Nat) (atEOF : Bool) (h : noNLNL data = true) :
    eventSplit data atEOF = (data.length, data, none) := by
  rw [eventSplit, eventSplitGo_cut data false 0 [], noNLNL_cutLen data h]
  simp

theorem eventSplit_no_boundary_witness :
    noNLNL [101, 10, 102] = true ∧ eventSplit [101, 10, 102] true = (3, [101, 10, 102], none) :=
  ⟨by decide, eventSplit_no_boundary [101, 10, 102] true (by decide)⟩

/-- C9: a byte sequence with exactly one blank-line boundary is split exactly
at that boundary: the returned frame is the prefix up to and including the
boundary and exactly that many bytes are reported consumed. -/
theorem eventSplit_one_boundary (data : List Nat) (atEOF : Bool) (h : countNLNL data = 1) :
    ∃ k, frameEnd data = some k ∧ eventSplit data atEOF = (k, data.take k, none) := by
  obtain ⟨k, hk⟩ := countNLNL_pos_frameEnd data (by omega)
  refine ⟨k, hk, ?_⟩
  rw [eventSplit, eventSplitGo_cut data false 0 [], cutLen_false_frameEnd data k hk]
  simp

theorem eventSplit_one_boundary_witness :
    countNLNL [65, 10, 10, 66] = 1 ∧ ∃ k, frameEnd [65, 10, 10, 66] = some k ∧
      eventSplit [65, 10, 10, 66] true = (k, List.take k [65, 10, 10, 66], none) :=
  ⟨by decide, eventSplit_one_boundary [65, 10, 10, 66] true (by decide)⟩

/-! ## JSON payloads

Model of `encoding/json.Unmarshal` decoding into a `map[string]interface{}`.
The accept/reject split mirrors the Go decoder: the RFC 8259 grammar its
scanner enforces (no leading zeros in numbers, digits required around `.`
and after an exponent marker, exactly four hex digits after `\u`, no raw
control characters inside strings), the float64 overflow range error of the
number conversion (the single post-grammar rejection; underflow is not an
error in strconv.ParseFloat), and the target-type rule that a document
decodes into the map only when it is an object or the literal `null`.

Values: a number is kept as its exact decimal value — `jnum` when integral,
`jdec` (mantissa × 10^exponent) otherwise.  The float64 rounding Go applies
to an accepted numeral is outside the model; no claim inspects the value of
a non-integral number, so the exact decimal stands for it.  Input arrives as
a Lean `String`, so invalid UTF-8 byte sequences (which Go maps to U+FFFD)
are not representable. -/

inductive Json : Type where
  | jnull : Json
  | jbool : Bool → Json
  | jnum : Int → Json
  | jdec : Int → Int → Json
  | jstr : String → Json
  | jarr : List Json → Json
  | jobj : List (String × Json) → Json

/-- Opening brace character, written by code so that brace literals do not
appear in the text. -/
def lbrace : Char := Char.ofNat 123

/-- Closing brace character. -/
def rbrace : Char := Char.ofNat 125

/-- JSON insignificant whitespace. -/
def skipWs : List Char → List Char
  | c :: rest => if c = ' ' ∨ c = '\n' ∨ c = '\t' ∨ c = '\r' then skipWs rest else c :: rest
  | [] => []

/-- Two-character escape sequences inside a JSON string, exactly the set the
Go scanner admits besides `\u`. -/
def escapeChar (c : Char) : Option Char :=
  if c = '"' ∨ c = '\\' ∨ c = '/' then some c
  else if c = 'n' then some '\n'
  else if c = 't' then some '\t'
  else if c = 'r' then some '\r'
  else if c = 'b' then some (Char.ofNat 8)
  else if c = 'f' then some (Char.ofNat 12)
  else none

/-- Value of one hexadecimal digit, upper or lower case. -/
def hexDigitVal (c : Char) : Option Nat :=
  if c.isDigit then some (c.toNat - 48)
  else if 'a' ≤ c ∧ c ≤ 'f' then some (c.toNat - 87)
  else if 'A' ≤ c ∧ c ≤ 'F' then some (c.toNat - 55)
  else none

/-- Code unit named by the four hex characters of a `\uXXXX` escape. -/
def hex4 (h1 h2 h3 h4 : Char) : Option Nat := do
  let v1 ← hexDigitVal h1
  let v2 ← hexDigitVal h2
  let v3 ← hexDigitVal h3
  let v4 ← hexDigitVal h4
  pure (v1 * 4096 + v2 * 256 + v3 * 16 + v4)

/-- Body of a JSON string after the opening quote; returns the decoded
characters and the input after the closing quote.  As in the Go decoder:
raw control characters (below U+0020) are rejected by the scanner; a
`\uXXXX` escape needs exactly four hex digits; a high surrogate directly
followed by an escaped low surrogate combines into one character
(utf16.DecodeRune), and any other surrogate decodes to U+FFFD with only its
own escape consumed. -/
def parseStrBody : Nat → List Char → Option (List Char × List Char)
  | 0, _ => none
  | _, [] => none
  | _ + 1, '"' :: rest => some ([], rest)
  | fuel + 1, '\\' :: rest =>
    match rest with
    | [] => none
    | 'u' :: rest2 =>
      match rest2 with
      | h1 :: h2 :: h3 :: h4 :: rest3 =>
        match hex4 h1 h2 h3 h4 with
        | none => none
        | some n =>
          if 0xD800 ≤ n ∧ n < 0xE000 then
            match rest3 with
            | '\\' :: 'u' :: g1 :: g2 :: g3 :: g4 :: rest4 =>
              match hex4 g1 g2 g3 g4 with
              | some n2 =>
                if n < 0xDC00 ∧ 0xDC00 ≤ n2 ∧ n2 < 0xE000 then do
                  let p ← parseStrBody fuel rest4
                  pure (Char.ofNat (0x10000 + (n - 0xD800) * 1024 + (n2 - 0xDC00)) :: p.1, p.2)
                else do
                  let p ← parseStrBody fuel ('\\' :: 'u' :: g1 :: g2 :: g3 :: g4 :: rest4)
                  pure (Char.ofNat 0xFFFD :: p.1, p.2)
              | none => do
                let p ← parseStrBody fuel ('\\' :: 'u' :: g1 :: g2 :: g3 :: g4 :: rest4)
                pure (Char.ofNat 0xFFFD :: p.1, p.2)
            | _ => do
              let p ← parseStrBody fuel rest3
              pure (Char.ofNat 0xFFFD :: p.1, p.2)
          else do
            let p ← parseStrBody fuel rest3
            pure (Char.ofNat n :: p.1, p.2)
      | _ => none
    | c :: rest2 => do
      let e ← escapeChar c
      let p ← parseStrBody fuel rest2
      pure (e :: p.1, p.2)
  | fuel + 1, c :: rest =>
    if c.toNat < 32 then none
    else do
      let p ← parseStrBody fuel rest
      pure (c :: p.1, p.2)

/-- Longest leading run of decimal digits, and the remaining input. -/
def takeDigitRun : List Char → List Char × List Char
  | c :: rest =>
    if c.isDigit then
      let p := takeDigitRun rest
      (c :: p.1, p.2)
    else ([], c :: rest)
  | [] => ([], [])

/-- Decimal digit characters read as a natural number. -/
def natOfDigits (ds : List Char) : Nat :=
  ds.foldl (fun acc c => acc * 10 + (c.toNat - 48)) 0

/-- Fraction part of a numeral (a dot and at least one digit); `none` on a
malformed fraction, `some ([], input)` when no fraction starts here. -/
def parseFracPart : List Char → Option (List Char × List Char)
  | '.' :: rest =>
    let p := takeDigitRun rest
    if p.1.isEmpty then none else some (p.1, p.2)
  | other => some ([], other)

/-- Exponent part of a numeral (`e`/`E`, an optional sign, at least one
digit); `none` on a malformed exponent, `some (none, input)` when no
exponent part starts here. -/
def parseExpPart : List Char → Option (Option Int × List Char)
  | [] => some (none, [])
  | c :: rest =>
    if c = 'e' ∨ c = 'E' then
      match rest with
      | [] => none
      | s :: rest2 =>
        if s = '+' then
          let p := takeDigitRun rest2
          if p.1.isEmpty then none else some (some ((natOfDigits p.1 : Int)), p.2)
        else if s = '-' then
          let p := takeDigitRun rest2
          if p.1.isEmpty then none else some (some (-((natOfDigits p.1 : Int))), p.2)
        else
          let p := takeDigitRun rest
          if p.1.isEmpty then none else some (some ((natOfDigits p.1 : Int)), p.2)
    else some (none, c :: rest)

/-- Canonical exact-decimal form of a numeral with integer digits `intDs`,
fraction digits `fracDs` and exponent `expv`: trailing zero digits move into
the exponent, so equal decimal values share one form. -/
def canonDec (intDs fracDs : List Char) (expv : Int) : Nat × Int :=
  let ds := intDs ++ fracDs
  let sig := (ds.reverse.dropWhile (fun c => c = '0')).reverse
  (natOfDigits sig, expv - (fracDs.length : Int) + ((ds.length - sig.length : Nat) : Int))

/-- Least magnitude that strconv.ParseFloat rounds to +Inf for 64-bit
floats: the midpoint between the largest finite float64 (2^1024 - 2^971)
and 2^1024, which round-half-even sends up to infinity.  At or above it the
conversion reports a range error and Unmarshal fails. -/
def float64OverflowBound : Nat := 2 ^ 1024 - 2 ^ 970

/-- Whether the numeral with canonical mantissa `m` and exponent `e`
overflows float64 — the one rejection encoding/json adds beyond the
grammar.  (Underflow silently rounds to zero and is accepted.) -/
def numOverflows (m : Nat) (e : Int) : Bool :=
  if m = 0 then false
  else if 0 ≤ e then decide (float64OverflowBound ≤ m * 10 ^ e.toNat)
  else decide (float64OverflowBound * 10 ^ (-e).toNat ≤ m)

/-- The number value for canonical mantissa `m` and exponent `e`, negated
when `neg`: `jnum` for an integral value, `jdec` otherwise. -/
def mkJsonNum (neg : Bool) (m : Nat) (e : Int) : Json :=
  if m = 0 then Json.jnum 0
  else if 0 ≤ e then
    let v : Int := ((m * 10 ^ e.toNat : Nat) : Int)
    Json.jnum (if neg then -v else v)
  else Json.jdec (if neg then -(m : Int) else (m : Int)) e

/-- JSON numeral after an optional leading minus (already consumed into
`neg`), per the grammar the Go scanner enforces — a leading zero must stand
alone in the integer part — followed by the float64 range check of the
decode step. -/
def parseNumber (neg : Bool) (input : List Char) : Option (Json × List Char) :=
  match input with
  | [] => none
  | c :: rest =>
    let ip : Option (List Char × List Char) :=
      if c = '0' then
        match rest with
        | d :: _ => if d.isDigit then none else some ([c], rest)
        | [] => some ([c], [])
      else if c.isDigit then
        let p := takeDigitRun rest
        some (c :: p.1, p.2)
      else none
    match ip with
    | none => none
    | some (intDs, rest1) =>
      match parseFracPart rest1 with
      | none => none
      | some (fracDs, rest2) =>
        match parseExpPart rest2 with
        | none => none
        | some (expOpt, rest3) =>
          let q := canonDec intDs fracDs (expOpt.getD 0)
          if numOverflows q.1 q.2 then none
          else some (mkJsonNum neg q.1 q.2, rest3)

mutual

/-- JSON value, fuel-bounded recursive descent. -/
def parseVal : Nat → List Char → Option (Json × List Char)
  | 0, _ => none
  | fuel + 1, input =>
    match skipWs input with
    | [] => none
    | c :: rest =>
      if c = 'n' then
        match rest with
        | 'u' :: 'l' :: 'l' :: r => some (.jnull, r)
        | _ => none
      else if c = 't' then
        match rest with
        | 'r' :: 'u' :: 'e' :: r => some (.jbool true, r)
        | _ => none
      else if c = 'f' then
        match rest with
        | 'a' :: 'l' :: 's' :: 'e' :: r => some (.jbool false, r)
        | _ => none
      else if c = '"' then
        (parseStrBody (rest.length + 1) rest).map (fun p => (Json.jstr (String.mk p.1), p.2))
      else if c = lbrace then
        match skipWs rest with
        | c2 :: r2 =>
          if c2 = rbrace then some (.jobj [], r2)
          else (parseMembers fuel (skipWs rest)).map (fun mp => (Json.jobj mp.1, mp.2))
        | [] => none
      else if c = '[' then
        match skipWs rest with
        | c2 :: r2 =>
          if c2 = ']' then some (.jarr [], r2)
          else (parseElems fuel (skipWs rest)).map (fun ep => (Json.jarr ep.1, ep.2))
        | [] => none
      else if c = '-' then
        parseNumber true rest
      else if c.isDigit then
        parseNumber false (c :: rest)
      else none

/-- Non-empty member list of a JSON object, expecting a `"key": value` pair
followed by a comma and more members or the closing brace. -/
def parseMembers : Nat → List Char → Option (List (String × Json) × List Char)
  | 0, _ => none
  | fuel + 1, input =>
    match input with
    | [] => none
    | c :: rest =>
      if c = '"' then
        (parseStrBody (rest.length + 1) rest).bind fun kp =>
          match skipWs kp.2 with
          | [] => none
          | c2 :: r2 =>
            if c2 = ':' then
              (parseVal fuel r2).bind fun vp =>
                match skipWs vp.2 with
                | [] => none
                | c3 :: r3 =>
                  if c3 = ',' then
                    (parseMembers fuel (skipWs r3)).map
                      (fun mp => ((String.mk kp.1, vp.1) :: mp.1, mp.2))
                  else if c3 = rbrace then some ([(String.mk kp.1, vp.1)], r3)
                  else none
            else none
      else none

/-- Non-empty element list of a JSON array. -/
def parseElems : Nat → List Char → Option (List Json × List Char)
  | 0, _ => none
  | fuel + 1, input =>
    (parseVal fuel input).bind fun vp =>
      match skipWs vp.2 with
      | [] => none
      | c :: r =>
        if c = ',' then
          (parseElems fuel (skipWs r)).map (fun ep => (vp.1 :: ep.1, ep.2))
        else if c = ']' then some ([vp.1], r)
        else none

end

/-- Model of `json.Unmarshal(b, &data)` with `data : map[string]interface{}`:
succeeds when the whole input (up to surrounding whitespace) is one JSON
object, returning its members, or the literal `null`, which leaves the map
nil — and reading a nil map is the same as reading an empty one, so its
members are the empty list.  Every other document (a value of another kind,
a grammar violation, a number beyond float64 range) is an Unmarshal error. -/
def jsonUnmarshalObj (s : String) : Option (List (String × Json)) :=
  match parseVal (s.data.length + 1) s.data with
  | some (Json.jobj ms, rest) => if (skipWs rest).isEmpty then some ms else none
  | some (Json.jnull, rest) => if (skipWs rest).isEmpty then some [] else none
  | _ => none

/-- Go map indexing `data[k]`: later duplicate keys overwrite earlier ones,
a missing key yields the nil interface, modelled as `none`. -/
def mapGet (kvs : List (String × Json)) (k : String) : Option Json :=
  match kvs with
  | [] => none
  | kv :: rest =>
    match mapGet rest k with
    | some v => some v
    | none => if kv.1 = k then some kv.2 else none

/-! ## Read-loop body of `Watch`

Each scanned frame is handled by the body of `for scanner.Scan()`:
split the frame text on newlines, derive the event type from the first line,
and dispatch on it.  The Go panics (index out of range on `parts[1]`, failed
type assertion `data["path"].(string)`) and the `log.Fatal` call are made
explicit outcomes. -/

/-- Go's `strings.Split(s, sep)` for the one-character separator `"\n"`,
on character lists; always returns at least one (possibly empty) part. -/
def splitNL : List Char → List (List Char)
  | [] => [[]]
  | c :: rest =>
    if c = '\n' then [] :: splitNL rest
    else
      match splitNL rest with
      | l :: ls => (c :: l) :: ls
      | [] => [[c]]

/-- Go's `strings.Replace(s, pat, rep, 1)` on character lists: replace the
first occurrence of `pat`, if any. -/
def replaceFirstAux : List Char → List Char → List Char → List Char
  | [], _, _ => []
  | c :: rest, pat, rep =>
    if pat.isPrefixOf (c :: rest) then rep ++ (c :: rest).drop pat.length
    else c :: replaceFirstAux rest pat rep

/-- Go's `strings.Replace(s, pat, rep, 1)` on strings. -/
def replaceFirst (s pat rep : String) : String :=
  String.mk (replaceFirstAux s.data pat.data rep.data)

/-- Lines of a frame: `parts := strings.Split(scanner.Text(), "\n")`. -/
def frameParts (f : String) : List String :=
  (splitNL f.data).map String.mk

/-- Event type of a frame: `strings.Replace(parts[0], "event: ", "", 1)`.
`strings.Split` always returns at least one part, so `parts[0]` is total. -/
def frameType (f : String) : String :=
  replaceFirst ((frameParts f).headD "") "event: " ""

/-- The `Event` struct: `Type`, `Path`, `Data` (Go `interface{}`, with the
nil interface modelled as `none`). -/
structure Event where
  type : String
  path : String
  data : Option Json

/-- Outcome of handling one frame in the read loop. -/
inductive StepResult where
  /-- Loop continues with the next frame; `sent` is the event pushed on the
  consumer channel, if any. -/
  | next (sent : Option Event)
  /-- Cancel path: the event is sent and then `break scanning` runs. -/
  | stop (sent : Event)
  /-- `log.Fatal(err)` on a payload that fails to unmarshal: process exits. -/
  | fatalErr
  /-- Runtime panic: `parts[1]` on a frame with a single line. -/
  | panicIndex
  /-- Runtime panic: type assertion `data["path"].(string)` fails. -/
  | panicAssert

/-- Body of `for scanner.Scan()` for one frame, transcribed case by case from
the `switch event.Type` in the source.  Note the switch has no `default`
case, so an unrecognized type falls through with no action. -/
def processFrame (f : String) : StepResult :=
  if frameType f = "put" ∨ frameType f = "patch" then
    match (frameParts f).get? 1 with
    | none => .panicIndex
    | some p1 =>
      match jsonUnmarshalObj (replaceFirst p1 "data: " "") with
      | none => .fatalErr
      | some kvs =>
        match mapGet kvs "path" with
        | some (Json.jstr s) => .next (some ⟨frameType f, s, mapGet kvs "data"⟩)
        | _ => .panicAssert
  else if frameType f = "keep-alive" then .next none
  else if frameType f = "cancel" then .stop ⟨frameType f, "", none⟩
  else if frameType f = "auth_revoked" then .next none
  else .next none

/-- How a run of the read loop over a frame sequence ends. -/
inductive LoopResult where
  /-- Loop exited normally (frames exhausted or `break scanning`), then
  `fb.StopWatching()` ran and the consumer channel was closed; `events` are
  the values sent on the channel, in order. -/
  | closed (events : List Event)
  /-- Process terminated by `log.Fatal` after sending `events`. -/
  | fatal (events : List Event)
  /-- Process crashed by a runtime panic after sending `events`. -/
  | panicked (events : List Event)

/-- Prefix an event sent before the rest of the run. -/
def LoopResult.consEvent (e : Event) : LoopResult → LoopResult
  | .closed es => .closed (e :: es)
  | .fatal es => .fatal (e :: es)
  | .panicked es => .panicked (e :: es)

/-- The read loop over a list of frames (the frames `scanner.Scan` yields). -/
def runLoop : List String → LoopResult
  | [] => .closed []
  | f :: rest =>
    match processFrame f with
    | .next none => runLoop rest
    | .next (some e) => (runLoop rest).consEvent e
    | .stop e => .closed [e]
    | .fatalErr => .fatal []
    | .panicIndex => .panicked []
    | .panicAssert => .panicked []

/-! ## Session state: the `Firebase` client, `StopWatching`, `Watch` -/

/-- Client state relevant to the watch session: the `watching` flag.  The
`stopWatching` channel carries no data; sends on it appear as booleans in the
operation results below. -/
structure Firebase where
  watching : Bool

/-- `StopWatching`: if the flag is set, send one value on the `stopWatching`
channel and clear the flag; otherwise do nothing.  Returns the new state and
whether a stop signal was sent. -/
def StopWatching (fb : Firebase) : Firebase × Bool :=
  if fb.watching then (⟨false⟩, true) else (fb, false)

/-- Result of the synchronous part of `Watch`. -/
structure WatchOutcome where
  /-- Error value returned to the caller (`none` is Go `nil`). -/
  err : Option String
  /-- Whether `close(notifications)` ran on the channel passed to this call. -/
  closedGiven : Bool
  /-- Client state when `Watch` returns. -/
  fb : Firebase
  /-- Whether the read-loop goroutine was launched. -/
  loopStarted : Bool

/-- Synchronous part of `Watch(notifications chan Event)`.  The collaborators
`fb.makeRequest` and `fb.client.Do` are out of scope (spec §1) and enter as
their possible error results: `mkErr`/`doErr` are `some e` when the
respective call fails with error `e`. -/
def Watch (fb : Firebase) (mkErr doErr : Option String) : WatchOutcome :=
  if fb.watching then ⟨none, true, fb, false⟩
  else
    match mkErr with
    | some e => ⟨some e, false, fb, false⟩
    | none =>
      match doErr with
      | some e => ⟨some e, false, fb, false⟩
      | none => ⟨none, false, ⟨true⟩, true⟩

/-- Helper: for a put/patch frame, `processFrame` is exactly the payload
branch of the switch. -/
theorem processFrame_putPatch (f : String)
    (hty : frameType f = "put" ∨ frameType f = "patch") :
    processFrame f =
      match (frameParts f).get? 1 with
      | none => .panicIndex
      | some p1 =>
        match jsonUnmarshalObj (replaceFirst p1 "data: " "") with
        | none => .fatalErr
        | some kvs =>
          match mapGet kvs "path" with
          | some (Json.jstr s) => .next (some ⟨frameType f, s, mapGet kvs "data"⟩)
          | _ => .panicAssert := by
  unfold processFrame
  rw [if_pos hty]

/-- Whether the decoded payload object has a `"path"` member whose value is
a JSON string — the condition under which `data["path"].(string)` succeeds. -/
def pathIsStr (kvs : List (String × Json)) : Bool :=
  match mapGet kvs "path" with
  | some (Json.jstr _) => true
  | _ => false

/-! ## Claims -/

/-- C3: feeding the frames `event: put\ndata: (path /a, data 5)`,
`event: keep-alive`, `event: cancel` sends exactly two events, in order —
`put` at path `/a` with data `5`, then `cancel` with empty path and nil
data — the keep-alive frame produces nothing, and after the cancel frame the
loop stops and the consumer channel is closed. -/
theorem runLoop_put_keepalive_cancel :
    runLoop ["event: put\ndata: \x7b\"path\":\"/a\",\"data\":5\x7d\n\n",
        "event: keep-alive\n\n", "event: cancel\n\n"] =
      .closed [⟨"put", "/a", some (Json.jnum 5)⟩, ⟨"cancel", "", none⟩] := rfl

/-- C1 counterexample: the frame `event: foo` (an event type outside the
fixed vocabulary) is NOT forwarded on the consumer channel — the switch in
the source has no default case, so the frame produces no event at all. -/
theorem unknownType_not_forwarded :
    processFrame "event: foo\n\n" ≠ .next (some ⟨"foo", "", none⟩) ∧
      processFrame "event: foo\n\n" = .next none := by
  refine ⟨?_, rfl⟩
  intro h
  rw [show processFrame "event: foo\n\n" = .next none from rfl] at h
  simp at h

/-- C1 amended: for every frame whose leading line yields an event type
outside the fixed vocabulary, the read loop forwards nothing (the event is
silently discarded) and the loop continues with the remaining frames. -/
theorem unknownType_dropped (f : String) (rest : List String)
    (h1 : frameType f ≠ "put") (h2 : frameType f ≠ "patch")
    (h3 : frameType f ≠ "keep-alive") (h4 : frameType f ≠ "cancel")
    (h5 : frameType f ≠ "auth_revoked") :
    processFrame f = .next none ∧ runLoop (f :: rest) = runLoop rest := by
  have hp : processFrame f = .next none := by
    unfold processFrame
    rw [if_neg (fun hor => hor.elim h1 h2), if_neg h3, if_neg h4, if_neg h5]
  refine ⟨hp, ?_⟩
  rw [runLoop, hp]

theorem unknownType_dropped_witness :
    processFrame "event: foo2\n\n" = .next none ∧
      runLoop ["event: foo2\n\n"] = runLoop [] :=
  unknownType_dropped "event: foo2\n\n" [] (by decide) (by decide) (by decide)
    (by decide) (by decide)

/-- C2 (code bug): a frame of type auth_revoked is ignored by the read loop —
the `auth_revoked` case of the switch contains only a `TODO: handle` comment,
so no event is forwarded and scanning continues (here a later cancel frame is
still reached) — contrary to the spec's forward-like-cancel-then-terminate
minimum behavior. -/
theorem authRevoked_ignored :
    processFrame "event: auth_revoked\n\n" = .next none ∧
      runLoop ["event: auth_revoked\n\n"] = .closed [] ∧
      runLoop ["event: auth_revoked\n\n", "event: cancel\n\n"] =
        .closed [⟨"cancel", "", none⟩] :=
  ⟨rfl, rfl, rfl⟩

/-- C4: calling Watch while the watching flag is already true closes the
channel given to that call, returns nil, leaves the client state unchanged
and starts no read loop. -/
theorem watch_already_watching (fb : Firebase) (mkErr doErr : Option String)
    (h : fb.watching = true) :
    Watch fb mkErr doErr = ⟨none, true, fb, false⟩ := by
  unfold Watch
  rw [if_pos h]

theorem watch_already_watching_witness :
    Watch ⟨true⟩ none none = ⟨none, true, ⟨true⟩, false⟩ :=
  watch_already_watching ⟨true⟩ none none rfl

/-- C5: if building the streaming request fails, or executing it fails, Watch
returns that same error synchronously; no read loop starts, the given channel
is not closed (so nothing is ever sent on it), and the state — in particular
the watching flag — is unchanged, hence still false. -/
theorem watch_setup_error (fb : Firebase) (e : String) (doErr : Option String)
    (h : fb.watching = false) :
    Watch fb (some e) doErr = ⟨some e, false, fb, false⟩ ∧
      Watch fb none (some e) = ⟨some e, false, fb, false⟩ := by
  constructor <;> simp [Watch, h]

theorem watch_setup_error_witness :
    Watch ⟨false⟩ (some "boom") none = ⟨some "boom", false, ⟨false⟩, false⟩ ∧
      Watch ⟨false⟩ none (some "boom") = ⟨some "boom", false, ⟨false⟩, false⟩ :=
  watch_setup_error ⟨false⟩ "boom" none rfl

/-- C6: StopWatching is idempotent by guard: when the watching flag is false
it is a no-op (state unchanged, nothing sent on the stop channel); after any
call the flag is false, so the second of two consecutive calls always takes
the no-op path. -/
theorem stopWatching_idempotent (fb : Firebase) :
    (fb.watching = false → StopWatching fb = (fb, false)) ∧
      (StopWatching fb).1.watching = false ∧
      StopWatching (StopWatching fb).1 = ((StopWatching fb).1, false) := by
  rcases fb with ⟨w⟩
  cases w <;> simp [StopWatching]

theorem stopWatching_idempotent_witness :
    StopWatching ⟨false⟩ = (⟨false⟩, false) ∧
      StopWatching (StopWatching ⟨true⟩).1 = ((StopWatching ⟨true⟩).1, false) :=
  ⟨(stopWatching_idempotent ⟨false⟩).1 rfl, (stopWatching_idempotent ⟨true⟩).2.2⟩

/-- C7: a put or patch frame whose payload line (after stripping the
`data: ` prefix) fails to unmarshal is fatal for the whole process
(`log.Fatal`): no event is forwarded and no error is returned to the
consumer. -/
theorem malformedPayload_fatal (f : String) (p1 : String)
    (hty : frameType f = "put" ∨ frameType f = "patch")
    (hp : (frameParts f).get? 1 = some p1)
    (hj : jsonUnmarshalObj (replaceFirst p1 "data: " "") = none) :
    processFrame f = .fatalErr := by
  simp only [processFrame_putPatch f hty, hp, hj]

theorem malformedPayload_fatal_witness :
    processFrame "event: put\ndata: nope\n\n" = .fatalErr :=
  malformedPayload_fatal "event: put\ndata: nope\n\n" "data: nope"
    (Or.inl (by decide)) (by decide) rfl

/-- C10: for every put or patch frame, the handler is total only when the
frame has a second line and its payload decodes to an object with a string
`"path"` member: a single-line frame panics with an out-of-range index on
`parts[1]`; a well-formed payload whose `"path"` member is absent or not a
string panics on the unguarded type assertion; and when the precondition
holds the handler forwards the decoded event. -/
theorem putPatch_handler_preconditions (f : String)
    (hty : frameType f = "put" ∨ frameType f = "patch") :
    ((frameParts f).get? 1 = none → processFrame f = .panicIndex) ∧
      (∀ p1 kvs, (frameParts f).get? 1 = some p1 →
        jsonUnmarshalObj (replaceFirst p1 "data: " "") = some kvs →
        pathIsStr kvs = false → processFrame f = .panicAssert) ∧
      (∀ p1 kvs s, (frameParts f).get? 1 = some p1 →
        jsonUnmarshalObj (replaceFirst p1 "data: " "") = some kvs →
        mapGet kvs "path" = some (Json.jstr s) →
        processFrame f = .next (some ⟨frameType f, s, mapGet kvs "data"⟩)) := by
  refine ⟨?_, ?_, ?_⟩
  · intro h1
    simp only [processFrame_putPatch f hty, h1]
  · intro p1 kvs hp hj hns
    simp only [processFrame_putPatch f hty, hp, hj]
    cases hm : mapGet kvs "path" with
    | none => rfl
    | some v =>
      cases v with
      | jstr s =>
        simp only [pathIsStr, hm] at hns
        exact Bool.noConfusion hns
      | jnull => rfl
      | jbool b => rfl
      | jnum n => rfl
      | jdec m e => rfl
      | jarr xs => rfl
      | jobj ms => rfl
  · intro p1 kvs s hp hj hm
    simp only [processFrame_putPatch f hty, hp, hj, hm]

theorem putPatch_handler_preconditions_witness :
    processFrame "event: put" = .panicIndex ∧
      processFrame "event: patch\ndata: \x7b\"data\":5\x7d\n\n" = .panicAssert ∧
      processFrame "event: patch\ndata: \x7b\"path\":5\x7d\n\n" = .panicAssert :=
  ⟨(putPatch_handler_preconditions "event: put" (Or.inl (by decide))).1 (by decide),
   (putPatch_handler_preconditions "event: patch\ndata: \x7b\"data\":5\x7d\n\n"
      (Or.inr (by decide))).2.1 "data: \x7b\"data\":5\x7d" [("data", Json.jnum 5)]
      (by decide) rfl rfl,
   (putPatch_handler_preconditions "event: patch\ndata: \x7b\"path\":5\x7d\n\n"
      (Or.inr (by decide))).2.1 "data: \x7b\"path\":5\x7d" [("path", Json.jnum 5)]
      (by decide) rfl rfl⟩

end Firego
